import Mathlib

/-!
Verification of the real-time market-data engine `ProjectXRealtimeDataManager`
(`src/project_x_py/realtime_data_manager.py`) against its natural-language
specification.

The Python code is shallowly embedded: prices are modelled as rationals,
volumes as integers, `datetime` values as a record of calendar fields, polars
DataFrames as lists of records.  Python truthiness on optional floats
(`None` and `0.0` are falsy) is modelled explicitly, because several code
paths branch on it.
-/

/-- Python truthiness of an optional float: `None` and `0.0` are falsy. -/
def pyTruthy : Option ℚ → Bool
  | none => false
  | some x => x != 0

/-- Python `a or b` on two optional floats (`dict.get` returns `None` for a
missing key): yields `a` when `a` is truthy, otherwise `b`. -/
def pyOr (a b : Option ℚ) : Option ℚ :=
  if pyTruthy a then a else b

/-- polars `DataFrame.tail(n)`: the last `n` rows. -/
def tailN (n : Nat) (l : List α) : List α :=
  l.drop (l.length - n)

/-- A Python `datetime` value in the market zone, decomposed into the fields
manipulated by `_calculate_bar_time`.  `day` stands for the whole date part
(an absolute day index); `micro` is the microsecond field. -/
structure PyDateTime where
  day : Nat
  hour : Nat
  minute : Nat
  second : Nat
  micro : Nat
deriving DecidableEq, Repr

/-- The absolute instant of a datetime, in microseconds.  Python compares
timezone-aware datetimes by instant; for field-valid datetimes this agrees
with lexicographic field comparison. -/
def PyDateTime.key (t : PyDateTime) : Nat :=
  (((t.day * 24 + t.hour) * 60 + t.minute) * 60 + t.second) * 1000000 + t.micro

/-- Embedding of `_calculate_bar_time(timestamp, interval, unit)`:
unit 1 (seconds) floors the second field (the code computes
`int(second + microsecond/1e6) // interval * interval`); unit 2 (minutes)
floors the minute field and zeroes second/microsecond; every other unit
raises `ValueError("Unsupported time unit: ...")`. -/
def calculate_bar_time (ts : PyDateTime) (interval : Nat) (unit : Nat) :
    Except String PyDateTime :=
  if unit = 1 then
    let total_seconds := ts.second + ts.micro / 1000000
    let rounded_seconds := total_seconds / interval * interval
    .ok { ts with second := rounded_seconds, micro := 0 }
  else if unit = 2 then
    let minutes := ts.minute / interval * interval
    .ok { ts with minute := minutes, second := 0, micro := 0 }
  else
    .error "Unsupported time unit"

/-- Whether an `Except` result is a success. -/
def exceptOk : Except String PyDateTime → Bool
  | .ok _ => true
  | .error _ => false

/-- Embedding of the `data_days` computation in `initialize`
(`data_days = max(initial_days, initial_days)`). -/
def data_days (initial_days : Int) : Int :=
  max initial_days initial_days

/-- Number of fetch attempts per timeframe in `initialize` (`max_retries`). -/
def max_retries : Nat := 3

/-- Sleep in seconds between fetch attempts in `initialize`. -/
def retry_sleep_seconds : Nat := 2

/-- `C2` counterexample timestamp: 2025-06-02 (day index 20241) 13:45:30.5. -/
def tsC2 : PyDateTime := ⟨20241, 13, 45, 30, 500000⟩

/-- C2, counterexample.  The claim says the calculator handles HOUR (unit 3)
by flooring; the code raises `ValueError` for every unit other than 1 and 2.
At the concrete timestamp 13:45:30.5 with a 1-hour timeframe (interval 60,
unit 3), the calculator fails instead of returning the 13:00:00 bucket. -/
theorem calculate_bar_time_hour_fails :
    calculate_bar_time tsC2 60 3 = .error "Unsupported time unit" ∧
    (⟨20241, 13, 0, 0, 0⟩ : PyDateTime) ≠ tsC2 := by
  constructor
  · rfl
  · decide

/-- C2, amended.  The time-bucket calculator succeeds exactly on the units
SECOND (1) and MINUTE (2); every other unit — including HOUR (3), DAY (4),
WEEK (5) and MONTH (6) — raises the invalid-unit error. -/
theorem calculate_bar_time_units :
    ∀ (ts : PyDateTime) (interval unit : Nat),
      exceptOk (calculate_bar_time ts interval unit) = true ↔
        (unit = 1 ∨ unit = 2) := by
  intro ts interval unit
  unfold calculate_bar_time exceptOk
  by_cases h1 : unit = 1
  · simp [h1]
  · by_cases h2 : unit = 2
    · simp [h1, h2]
    · simp [h1, h2]

/-- C9.  `initialize` computes the number of history days as
`max(initial_days, initial_days)`, which is the identity; in particular for
`initial_days = 0` it requests 0 days, not the `max(1, initial_days) = 1`
the specification states. -/
theorem data_days_is_identity :
    (∀ d : Int, data_days d = d) ∧
    data_days 0 = 0 ∧ data_days 0 ≠ max 1 (0 : Int) ∧
    max_retries = 3 ∧ retry_sleep_seconds = 2 := by
  refine ⟨fun d => ?_, rfl, by decide, rfl, rfl⟩
  simp [data_days]

/-- Kind of a synthesized tick (`tick_data["type"]`): `"trade"` or `"quote"`. -/
inductive TickKind
  | trade
  | quote
deriving DecidableEq, Repr

/-- A normalized tick as built by `_on_quote_update` (`tick_data`). -/
structure Tick where
  price : ℚ
  volume : Int
  kind : TickKind
deriving DecidableEq, Repr

/-- The retained quote state `_last_quote_state`. -/
structure QuoteState where
  bid : Option ℚ
  ask : Option ℚ
deriving DecidableEq, Repr

/-- An inbound quote frame (`quote_data`), each field `none` when the key is
absent.  `volume` records presence of the `"volume"` key. -/
structure QuoteFrame where
  bestBid : Option ℚ
  bid : Option ℚ
  bestAsk : Option ℚ
  ask : Option ℚ
  lastPrice : Option ℚ
  last : Option ℚ
  price : Option ℚ
  volume : Option Int
deriving DecidableEq, Repr

/-- Embedding of the tick-synthesis part of `_on_quote_update`: alias
mapping with Python `or`, quote-state update, trade/quote kind decision, and
the tick handed to `_process_tick_data`.  Returns the new quote state and
the synthesized tick, if any.  Note the code always sets the tick's
`volume` field to the literal `0`. -/
def on_quote_update (st : QuoteState) (f : QuoteFrame) :
    QuoteState × Option Tick :=
  let current_bid := pyOr f.bestBid f.bid
  let current_ask := pyOr f.bestAsk f.ask
  let st' : QuoteState :=
    { bid := if current_bid.isSome then current_bid else st.bid,
      ask := if current_ask.isSome then current_ask else st.ask }
  let last_price := pyOr (pyOr f.lastPrice f.last) f.price
  let is_trade_update := last_price.isSome && f.volume.isSome
  let price? : Option ℚ :=
    if is_trade_update && last_price.isSome then last_price
    else
      match st'.bid, st'.ask with
      | some b, some a => some ((b + a) / 2)
      | some b, none => some b
      | none, some a => some a
      | none, none => none
  match price? with
  | none => (st', none)
  | some p =>
      (st', some { price := p, volume := 0,
                   kind := if is_trade_update then .trade else .quote })

/-- C1 counterexample frame: a quote frame carrying `lastPrice = 100` and a
`volume` field of 5, i.e. a trade update of size 5. -/
def frameC1 : QuoteFrame :=
  { bestBid := none, bid := none, bestAsk := none, ask := none,
    lastPrice := some 100, last := none, price := none, volume := some 5 }

/-- C1, counterexample.  A frame with a last price and `volume = 5`
synthesizes a TRADE-kind tick, but the tick handed to the ingestor carries
volume 0, not the trade size 5: `tick_data` hardcodes `"volume": 0`. -/
theorem quote_trade_tick_volume_zero :
    (on_quote_update ⟨none, none⟩ frameC1).2 =
      some { price := 100, volume := 0, kind := .trade } ∧
    frameC1.volume = some 5 ∧ (0 : Int) ≠ 5 := by
  refine ⟨rfl, rfl, by decide⟩

/-- C1, amended.  Every tick synthesized by the quote handler — whether of
TRADE or QUOTE kind — carries volume 0; the frame's volume field is never
propagated to the tick ingestor. -/
theorem quote_tick_volume_always_zero (st : QuoteState) (f : QuoteFrame)
    (t : Tick) (h : (on_quote_update st f).2 = some t) : t.volume = 0 := by
  unfold on_quote_update at h
  dsimp only at h
  split at h
  · exact absurd h (by simp)
  · simp only [Option.some.injEq] at h
    subst h
    rfl

/-- Witness for `quote_tick_volume_always_zero` at the concrete C1 frame. -/
theorem quote_tick_volume_always_zero_witness :
    ({ price := 100, volume := 0, kind := .trade } : Tick).volume = 0 :=
  quote_tick_volume_always_zero ⟨none, none⟩ frameC1 _ rfl

/-- One OHLCV bar (a row of a per-timeframe polars DataFrame). -/
structure Bar where
  timestamp : PyDateTime
  open_ : ℚ
  high : ℚ
  low : ℚ
  close : ℚ
  volume : Int
deriving DecidableEq, Repr

/-- Embedding of `get_data(timeframe, bars)`: look the timeframe up in
`self.data`; `None` when absent; otherwise the last `bars` rows when `bars`
is truthy (non-`None`, nonzero) and the frame is longer than `bars`. -/
def get_data (data : List (String × List Bar)) (timeframe : String)
    (bars : Option Nat) : Option (List Bar) :=
  match data.lookup timeframe with
  | none => none
  | some d =>
      match bars with
      | some n => if n ≠ 0 ∧ n < d.length then some (tailN n d) else some d
      | none => some d

/-- Embedding of `get_current_price`: reads the hardcoded `"15sec"`
timeframe via `get_data("15sec", bars=1)` and returns the close of its last
row, `None` when that timeframe is absent or empty. -/
def get_current_price (data : List (String × List Bar)) : Option ℚ :=
  match get_data data "15sec" (some 1) with
  | some d => if 0 < d.length then d.getLast?.map Bar.close else none
  | none => none

/-- C3 counterexample state: a manager configured only with `5min`, whose
single series holds one bar closing at 42. -/
def dataC3 : List (String × List Bar) :=
  [("5min", [{ timestamp := ⟨20241, 12, 5, 0, 0⟩, open_ := 40, high := 43,
               low := 39, close := 42, volume := 7 }])]

/-- C3, counterexample.  For a manager configured only with the `5min`
timeframe, whose finest (and only) series ends with a bar closing at 42,
`get_current_price` returns `None` rather than 42: it reads the hardcoded
`"15sec"` timeframe, not the finest configured one. -/
theorem get_current_price_ignores_finest :
    get_current_price dataC3 = none ∧
    ((dataC3.lookup "5min").bind (fun d => d.getLast?)).map Bar.close =
      some 42 ∧
    get_current_price dataC3 ≠ some 42 := by
  refine ⟨rfl, rfl, by decide⟩

/-- C3, amended.  `get_current_price` returns the close of the last bar of
the hardcoded `15sec` timeframe whenever that timeframe is present, and
`None` otherwise — regardless of which timeframes are configured or how
fine they are. -/
theorem get_current_price_is_last_15sec_close
    (data : List (String × List Bar)) :
    get_current_price data =
      ((data.lookup "15sec").bind (fun d => d.getLast?)).map Bar.close := by
  unfold get_current_price get_data
  cases h : data.lookup "15sec" with
  | none => rfl
  | some d =>
    cases d with
    | nil => rfl
    | cons b bs =>
      by_cases h1 : 1 < (b :: bs).length
      · have hlast : (tailN 1 (b :: bs)).getLast? = (b :: bs).getLast? := by
          rw [tailN, List.getLast?_drop, if_neg (by omega)]
        have hlen : (tailN 1 (b :: bs)).length = 1 := by
          simp only [tailN, List.length_drop]
          omega
        simp only [ne_eq, one_ne_zero, not_false_eq_true, true_and, h1,
          if_pos, hlen, Nat.lt_irrefl, zero_lt_one, hlast, Option.bind_some,
          Option.some_bind]
      · have hlen : (b :: bs).length = 1 := by
          simp only [List.length_cons, not_lt] at h1 ⊢
          omega
        simp [h1, hlen]

/-- One order-book price level (a row of `orderbook_bids`/`orderbook_asks`). -/
structure Level where
  price : ℚ
  volume : Int
  timestamp : Nat
  type : String
deriving DecidableEq, Repr

/-- Keep the first occurrence of each price, skipping prices already seen.
Applied to the reversed row list this models polars
`group_by("price").agg(col.last())`. -/
def keepFirstByPrice (seen : List ℚ) : List Level → List Level
  | [] => []
  | x :: xs =>
      if x.price ∈ seen then keepFirstByPrice seen xs
      else x :: keepFirstByPrice (x.price :: seen) xs

/-- For each price, the last row carrying it (the polars group-by-last step
of `_update_orderbook_side`). -/
def dedupLastByPrice (l : List Level) : List Level :=
  (keepFirstByPrice [] l.reverse).reverse

/-- Bid comparator: descending price. -/
def bidLe (a b : Level) : Bool := decide (b.price ≤ a.price)

/-- Ask comparator: ascending price. -/
def askLe (a b : Level) : Bool := decide (a.price ≤ b.price)

/-- The per-call pipeline of `_update_orderbook_side` applied to the
concatenated rows: keep the last row per price (polars group-by-last), drop
zero-volume levels, sort (bids descending, asks ascending) and keep the top
100 levels. -/
def sidePipeline (isBid : Bool) (rows : List Level) : List Level :=
  (((dedupLastByPrice rows).filter
      (fun l => decide (0 < l.volume))).mergeSort
    (if isBid then bidLe else askLe)).take 100

/-- Embedding of `_update_orderbook_side(updates, side)`: concatenate the
update rows onto the current side and run the group-last / filter / sort /
cap pipeline; with no updates the side is left untouched (the code is only
called on non-empty batches and guards `if updates:` itself). -/
def update_orderbook_side (current : List Level) (updates : List Level)
    (isBid : Bool) : List Level :=
  if updates.isEmpty then current
  else sidePipeline isBid (current ++ updates)

theorem mem_keepFirstByPrice {seen : List ℚ} {l : List Level} {x : Level}
    (h : x ∈ keepFirstByPrice seen l) : x ∈ l := by
  induction l generalizing seen with
  | nil => simp [keepFirstByPrice] at h
  | cons z tl ih =>
    rw [keepFirstByPrice] at h
    by_cases hz : z.price ∈ seen
    · rw [if_pos hz] at h
      exact List.mem_cons_of_mem _ (ih h)
    · rw [if_neg hz] at h
      rcases List.mem_cons.mp h with h | h
      · exact h ▸ List.mem_cons_self _ _
      · exact List.mem_cons_of_mem _ (ih h)

theorem keepFirstByPrice_not_seen {seen : List ℚ} {l : List Level}
    {x : Level} (h : x ∈ keepFirstByPrice seen l) : x.price ∉ seen := by
  induction l generalizing seen with
  | nil => simp [keepFirstByPrice] at h
  | cons z tl ih =>
    rw [keepFirstByPrice] at h
    by_cases hz : z.price ∈ seen
    · rw [if_pos hz] at h
      exact ih h
    · rw [if_neg hz] at h
      rcases List.mem_cons.mp h with h | h
      · exact h ▸ hz
      · intro hc
        exact ih h (List.mem_cons_of_mem _ hc)

theorem keepFirstByPrice_nodup (seen : List ℚ) (l : List Level) :
    ((keepFirstByPrice seen l).map Level.price).Nodup := by
  induction l generalizing seen with
  | nil => simp [keepFirstByPrice]
  | cons z tl ih =>
    rw [keepFirstByPrice]
    by_cases hz : z.price ∈ seen
    · rw [if_pos hz]
      exact ih seen
    · rw [if_neg hz]
      simp only [List.map_cons, List.nodup_cons]
      refine ⟨?_, ih _⟩
      intro hc
      rcases List.mem_map.mp hc with ⟨y, hy, hyp⟩
      exact keepFirstByPrice_not_seen hy (hyp ▸ List.mem_cons_self _ _)

theorem keepFirstByPrice_find? {seen : List ℚ} {l : List Level} {x : Level}
    (h : x ∈ keepFirstByPrice seen l) :
    l.find? (fun y => decide (y.price = x.price)) = some x := by
  induction l generalizing seen with
  | nil => simp [keepFirstByPrice] at h
  | cons z tl ih =>
    rw [keepFirstByPrice] at h
    by_cases hz : z.price ∈ seen
    · rw [if_pos hz] at h
      have hne : z.price ≠ x.price := by
        intro hc
        exact keepFirstByPrice_not_seen h (hc ▸ hz)
      rw [List.find?_cons_of_neg _ (by simpa using hne)]
      exact ih h
    · rw [if_neg hz] at h
      rcases List.mem_cons.mp h with h | h
      · subst h
        rw [List.find?_cons_of_pos _ (by simp)]
      · have hx := keepFirstByPrice_not_seen h
        have hne : z.price ≠ x.price := by
          intro hc
          exact hx (hc ▸ List.mem_cons_self _ _)
        rw [List.find?_cons_of_neg _ (by simpa using hne)]
        exact ih h

theorem mem_dedupLastByPrice {l : List Level} {x : Level}
    (h : x ∈ dedupLastByPrice l) : x ∈ l := by
  rw [dedupLastByPrice, List.mem_reverse] at h
  exact List.mem_reverse.mp (mem_keepFirstByPrice h)

theorem dedupLastByPrice_nodup (l : List Level) :
    ((dedupLastByPrice l).map Level.price).Nodup := by
  rw [dedupLastByPrice, List.map_reverse, List.nodup_reverse]
  exact keepFirstByPrice_nodup [] l.reverse

/-- In `dedupLastByPrice (cur ++ [e])`, the only possible row at `e`'s price
is `e` itself: the group-by keeps the last row per price. -/
theorem dedupLastByPrice_last {cur : List Level} {e x : Level}
    (h : x ∈ dedupLastByPrice (cur ++ [e])) (hp : x.price = e.price) :
    x = e := by
  rw [dedupLastByPrice, List.mem_reverse] at h
  have hfind := keepFirstByPrice_find? h
  rw [List.reverse_append, List.reverse_singleton, List.singleton_append,
    List.find?_cons_of_pos _ (by simp [hp])] at hfind
  exact (Option.some.injEq _ _ ▸ hfind).symm

/-- The book-side invariant of the specification: at most 100 levels, all
volumes positive, prices unique, bids sorted in strictly descending price
and asks in strictly ascending price. -/
def sideInvariant (isBid : Bool) (l : List Level) : Prop :=
  l.length ≤ 100 ∧
  (∀ x ∈ l, 0 < x.volume) ∧
  ((l.map Level.price).Nodup) ∧
  (isBid = true → l.Pairwise (fun a b => b.price < a.price)) ∧
  (isBid = false → l.Pairwise (fun a b => a.price < b.price))

theorem sideLe_trans (isBid : Bool) (a b c : Level)
    (hab : (if isBid then bidLe else askLe) a b = true)
    (hbc : (if isBid then bidLe else askLe) b c = true) :
    (if isBid then bidLe else askLe) a c = true := by
  cases isBid <;>
    simp only [Bool.false_eq_true, if_false, if_true, askLe, bidLe,
      decide_eq_true_eq] at hab hbc ⊢
  · exact le_trans hab hbc
  · exact le_trans hbc hab

theorem sideLe_total (isBid : Bool) (a b : Level) :
    ((if isBid then bidLe else askLe) a b ||
      (if isBid then bidLe else askLe) b a) = true := by
  cases isBid <;> simp [bidLe, askLe, le_total]

theorem sidePipeline_invariant (isBid : Bool) (rows : List Level) :
    sideInvariant isBid (sidePipeline isBid rows) := by
  unfold sidePipeline
  set le := (if isBid then bidLe else askLe) with hle
  set filtered := (dedupLastByPrice rows).filter
    (fun l => decide (0 < l.volume)) with hfilt
  set sorted := filtered.mergeSort le with hsort
  have hperm : sorted.Perm filtered := List.mergeSort_perm filtered le
  have hsub : (sorted.take 100).Sublist sorted := List.take_sublist _ _
  have hnodupF : (filtered.map Level.price).Nodup := by
    have hs : (filtered.map Level.price).Sublist
        ((dedupLastByPrice rows).map Level.price) :=
      (List.filter_sublist _).map _
    exact (dedupLastByPrice_nodup rows).sublist hs
  have hnodupS : (sorted.map Level.price).Nodup :=
    ((hperm.map Level.price).nodup_iff).mpr hnodupF
  have hsorted : sorted.Pairwise (fun a b => le a b = true) :=
    List.sorted_mergeSort (sideLe_trans isBid) (sideLe_total isBid) filtered
  have hnePrices : sorted.Pairwise (fun a b => a.price ≠ b.price) :=
    List.pairwise_map.mp hnodupS
  refine ⟨List.length_take_le _ _, ?_, ?_, ?_, ?_⟩
  · intro x hx
    have hxf : x ∈ filtered := hperm.mem_iff.mp (hsub.mem hx)
    simpa using List.of_mem_filter hxf
  · exact hnodupS.sublist (hsub.map _)
  · intro hb
    subst hb
    refine List.Pairwise.sublist hsub ?_
    refine (hsorted.and hnePrices).imp ?_
    rintro a b ⟨h1, h2⟩
    rw [hle] at h1
    simp only [if_true, bidLe, decide_eq_true_eq] at h1
    exact lt_of_le_of_ne h1 (fun hc => h2 hc.symm)
  · intro hb
    subst hb
    refine List.Pairwise.sublist hsub ?_
    refine (hsorted.and hnePrices).imp ?_
    rintro a b ⟨h1, h2⟩
    rw [hle] at h1
    simp only [Bool.false_eq_true, if_false, askLe, decide_eq_true_eq] at h1
    exact lt_of_le_of_ne h1 h2

theorem update_orderbook_side_preserves (current : List Level)
    (updates : List Level) (isBid : Bool)
    (h : sideInvariant isBid current) :
    sideInvariant isBid (update_orderbook_side current updates isBid) := by
  rw [update_orderbook_side]
  by_cases hne : updates.isEmpty
  · rw [if_pos hne]
    exact h
  · rw [if_neg hne]
    exact sidePipeline_invariant isBid (current ++ updates)

/-- Fold a sequence of depth-update batches into one book side, starting
from the empty side the constructor creates. -/
def apply_updates (isBid : Bool) (batches : List (List Level)) : List Level :=
  batches.foldl (fun st b => update_orderbook_side st b isBid) []

/-- C5.  After any sequence of depth updates, each order-book side holds at
most 100 price levels, every stored level has positive volume (an update
with volume 0 removes the level and zero-volume entries never persist),
prices are unique, and bids are sorted descending while asks are sorted
ascending. -/
theorem orderbook_side_invariant (isBid : Bool)
    (batches : List (List Level)) :
    sideInvariant isBid (apply_updates isBid batches) := by
  rw [apply_updates]
  have hgen : ∀ (bs : List (List Level)) (st : List Level),
      sideInvariant isBid st →
      sideInvariant isBid
        (bs.foldl (fun s b => update_orderbook_side s b isBid) st) := by
    intro bs
    induction bs with
    | nil => intro st h; exact h
    | cons b tl ih =>
      intro st h
      exact ih _ (update_orderbook_side_preserves st b isBid h)
  refine hgen batches [] ?_
  refine ⟨by simp, by simp, by simp, ?_, ?_⟩ <;> intro _ <;> simp

/-- Which side(s) a type-9/10 depth entry is routed to. -/
inductive ModRoute
  | bidOnly
  | askOnly
  | both
deriving DecidableEq, Repr

/-- Embedding of the type-9/10 routing in `_on_market_depth`: the code
branches on `if mid_price and price != 0` (Python truthiness), compares
`price <= mid_price` when that holds, and otherwise queues the entry on
both sides. -/
def route_mod_entry (mid : Option ℚ) (price : ℚ) : ModRoute :=
  match mid with
  | some m =>
      if m ≠ 0 ∧ price ≠ 0 then
        if price ≤ m then .bidOnly else .askOnly
      else .both
  | none => .both

/-- C4, counterexample.  With a known mid price of 100.5, a type-9/10 entry
at price 0 is routed to both sides, although the claim (price ≤ mid → bid
side) requires the bid side only: the code guards on `price != 0`. -/
theorem route_mod_entry_price_zero :
    route_mod_entry (some (201 / 2)) 0 = ModRoute.both ∧
    (0 : ℚ) ≤ 201 / 2 ∧
    ModRoute.both ≠ ModRoute.bidOnly := by
  refine ⟨by norm_num [route_mod_entry], by norm_num, by decide⟩

/-- Deleting helper for C4: an update batch consisting of a single entry
with volume 0 leaves no level at that price, whatever the prior side
content. -/
theorem update_orderbook_side_deletes (cur : List Level) (p : ℚ) (ts : Nat)
    (ty : String) (isBid : Bool) :
    p ∉ (update_orderbook_side cur [⟨p, 0, ts, ty⟩] isBid).map
      Level.price := by
  intro hmem
  rcases List.mem_map.mp hmem with ⟨x, hx, hxp⟩
  rw [update_orderbook_side, if_neg (by simp)] at hx
  rw [sidePipeline] at hx
  have hxs := (List.take_sublist _ _).mem hx
  have hxf := (List.mergeSort_perm _ _).mem_iff.mp hxs
  have hvol : 0 < x.volume := by simpa using List.of_mem_filter hxf
  have hxd : x ∈ dedupLastByPrice (cur ++ [⟨p, 0, ts, ty⟩]) :=
    List.mem_of_mem_filter hxf
  have hx0 : x = ⟨p, 0, ts, ty⟩ := dedupLastByPrice_last hxd hxp
  rw [hx0] at hvol
  simp at hvol

/-- C4, amended.  A type-9/10 depth entry is applied to the bid side when
`price ≤ mid` and to the ask side otherwise — but only when the mid price
is known (present and nonzero) AND the entry's price is nonzero; when the
mid is unknown or zero, or the entry price is zero, it is applied to both
sides.  In all cases an entry with volume 0 deletes that price level. -/
theorem route_mod_entry_spec (m price : ℚ) (hm : m ≠ 0) (hp : price ≠ 0) :
    (route_mod_entry (some m) price =
      if price ≤ m then ModRoute.bidOnly else ModRoute.askOnly) ∧
    (∀ q : ℚ, route_mod_entry none q = ModRoute.both) ∧
    (∀ q : ℚ, route_mod_entry (some 0) q = ModRoute.both) ∧
    route_mod_entry (some m) 0 = ModRoute.both ∧
    (∀ (cur : List Level) (ts : Nat) (ty : String) (isBid : Bool),
      price ∉ (update_orderbook_side cur [⟨price, 0, ts, ty⟩] isBid).map
        Level.price) := by
  refine ⟨?_, fun q => rfl, ?_, ?_, ?_⟩
  · rw [route_mod_entry, if_pos ⟨hm, hp⟩]
  · intro q
    rw [route_mod_entry]
    simp
  · rw [route_mod_entry]
    simp
  · intro cur ts ty isBid
    exact update_orderbook_side_deletes cur price ts ty isBid

/-- Witness for `route_mod_entry_spec` at mid 2, price 1. -/
theorem route_mod_entry_spec_witness :
    route_mod_entry (some 2) 1 =
      (if (1 : ℚ) ≤ 2 then ModRoute.bidOnly else ModRoute.askOnly) :=
  (route_mod_entry_spec 2 1 (by norm_num) (by norm_num)).1

/-- A trade-tape row of `recent_trades`. -/
structure TradeRec where
  price : ℚ
  volume : Int
  timestamp : Nat
  side : String
deriving DecidableEq, Repr

/-- Best bid from `get_best_bid_ask`: the first row of the (descending-
sorted) bid frame, `None` when the frame is empty. -/
def get_best_bid (bids : List Level) : Option ℚ :=
  bids.head?.map Level.price

/-- Best ask from `get_best_bid_ask`: the first row of the (ascending-
sorted) ask frame, `None` when the frame is empty. -/
def get_best_ask (asks : List Level) : Option ℚ :=
  asks.head?.map Level.price

/-- Embedding of the side inference in `_update_trade_flow`: the code
branches on `if best_bid and best_ask` (Python truthiness: `None` and `0.0`
are falsy), then checks `price >= best_ask` before `price <= best_bid`. -/
def infer_side (best_bid best_ask : Option ℚ) (price : ℚ) : String :=
  match best_bid, best_ask with
  | some b, some a =>
      if b ≠ 0 ∧ a ≠ 0 then
        if a ≤ price then "buy"
        else if price ≤ b then "sell"
        else "unknown"
      else "unknown"
  | _, _ => "unknown"

/-- Embedding of `_update_trade_flow(trade_updates)`: tag each execution
with the inferred side from the current top of book and keep the last 1000
rows of the tape. -/
def update_trade_flow (bids asks : List Level) (recent : List TradeRec)
    (trade_updates : List (ℚ × Int × Nat)) : List TradeRec :=
  if trade_updates.isEmpty then recent
  else
    let bb := get_best_bid bids
    let ba := get_best_ask asks
    let enhanced := trade_updates.map
      (fun u => ⟨u.1, u.2.1, u.2.2, infer_side bb ba u.1⟩)
    tailN 1000 (recent ++ enhanced)

/-- C6 counterexample books: a single bid level at price 0 and a single ask
level at 101. -/
def bidsC6 : List Level := [⟨0, 5, 0, "bid"⟩]

/-- Ask side for the C6 counterexample. -/
def asksC6 : List Level := [⟨101, 4, 0, "ask"⟩]

/-- C6, counterexample.  With best bid 0 (present: a stored level at price
0 with volume 5) and best ask 101, a trade at 102 satisfies
`price ≥ best ask`, so the claim requires side BUY — but the code's
truthiness guard `if best_bid and best_ask` treats the 0.0 bid as absent
and tags the trade UNKNOWN. -/
theorem trade_side_zero_bid_unknown :
    (update_trade_flow bidsC6 asksC6 [] [(102, 1, 0)]).map TradeRec.side =
      ["unknown"] ∧
    get_best_bid bidsC6 = some 0 ∧
    get_best_ask asksC6 = some 101 ∧
    (101 : ℚ) ≤ 102 ∧
    "unknown" ≠ "buy" := by
  refine ⟨?_, rfl, rfl, by norm_num, by decide⟩
  norm_num [update_trade_flow, tailN, infer_side, get_best_bid, get_best_ask,
    bidsC6, asksC6]

/-- C6, amended.  Every trade newly appended to the tape carries the side
inferred from the top of book at insert time under Python truthiness: BUY
when both best bid and best ask are present and nonzero and the price is ≥
best ask, SELL when both are present and nonzero and the price is ≤ best
bid, and UNKNOWN otherwise — including whenever best bid or best ask is
absent **or equal to 0**. -/
theorem trade_side_inference (bids asks : List Level)
    (recent : List TradeRec) (upds : List (ℚ × Int × Nat)) (x : TradeRec)
    (hx : x ∈ update_trade_flow bids asks recent upds)
    (hnew : x ∉ recent) :
    x.side = infer_side (get_best_bid bids) (get_best_ask asks) x.price := by
  rw [update_trade_flow] at hx
  by_cases he : upds.isEmpty
  · rw [if_pos he] at hx
    exact absurd hx hnew
  · rw [if_neg he] at hx
    have hx' := (List.drop_sublist _ _).mem hx
    rcases List.mem_append.mp hx' with h | h
    · exact absurd h hnew
    · rcases List.mem_map.mp h with ⟨u, _, hu⟩
      subst hu
      rfl

/-- Witness for `trade_side_inference`: bid 99 / ask 101, trade at 102 is
tagged `"buy"`. -/
theorem trade_side_inference_witness :
    (⟨102, 1, 7, "buy"⟩ : TradeRec).side =
      infer_side (get_best_bid [⟨99, 5, 0, "bid"⟩])
        (get_best_ask [⟨101, 4, 0, "ask"⟩]) (102 : ℚ) := by
  refine trade_side_inference [⟨99, 5, 0, "bid"⟩] [⟨101, 4, 0, "ask"⟩] []
    [(102, 1, 7)] ⟨102, 1, 7, "buy"⟩ ?_ (by simp)
  norm_num [update_trade_flow, tailN, infer_side, get_best_bid, get_best_ask]

/-- Callback events dispatched by the tick-processing path. -/
inductive Event
  | new_bar (tf : String) (bar_time : PyDateTime)
  | data_update (price : ℚ) (volume : Int)
deriving DecidableEq, Repr

/-- Python dict assignment `d[k] = v` on an insertion-ordered dict:
overwrite in place when the key exists, append otherwise. -/
def dictSet (l : List (String × α)) (k : String) (v : α) :
    List (String × α) :=
  if (l.lookup k).isSome then
    l.map (fun p => if p.1 = k then (k, v) else p)
  else l ++ [(k, v)]

/-- The manager state touched by the tick-processing path: the running
flag, the timeframe configuration (key ↦ interval, unit), the per-timeframe
bar frames and `last_bar_times`. -/
structure MgrState where
  is_running : Bool
  timeframes : List (String × Nat × Nat)
  data : List (String × List Bar)
  last_bar_times : List (String × PyDateTime)
deriving DecidableEq, Repr

/-- `bar_volume = max(volume, 1) if volume > 0 else 1` for a fresh bar. -/
def bar_volume_of (volume : Int) : Int :=
  if 0 < volume then max volume 1 else 1

/-- Embedding of `_update_timeframe_data(tf_key, timestamp, price, volume)`.
All exceptions inside the method (unknown timeframe, unsupported unit,
polars `.item()` on a non-singleton frame) are caught by its `try` block
and leave the state untouched.  Datetimes are compared by instant
(`PyDateTime.key`).  The final memory trim keeps the last 1000 bars. -/
def update_timeframe_data (st : MgrState) (tf_key : String)
    (ts : PyDateTime) (price : ℚ) (volume : Int) : MgrState × List Event :=
  match st.timeframes.lookup tf_key with
  | none => (st, [])
  | some (interval, unit) =>
    match calculate_bar_time ts interval unit with
    | .error _ => (st, [])
    | .ok bar_time =>
      match st.data.lookup tf_key with
      | none => (st, [])
      | some current_data =>
        if current_data.isEmpty then
          let nb : Bar := ⟨bar_time, price, price, price, price,
            bar_volume_of volume⟩
          ({ st with data := dictSet st.data tf_key [nb],
                     last_bar_times :=
                       dictSet st.last_bar_times tf_key bar_time }, [])
        else
          match current_data.getLast? with
          | none => (st, [])
          | some lastBar =>
            if lastBar.timestamp.key < bar_time.key then
              let nb : Bar := ⟨bar_time, price, price, price, price,
                bar_volume_of volume⟩
              let d1 := current_data ++ [nb]
              let d2 := if 1000 < d1.length then tailN 1000 d1 else d1
              ({ st with data := dictSet st.data tf_key d2,
                         last_bar_times :=
                           dictSet st.last_bar_times tf_key bar_time },
               [Event.new_bar tf_key bar_time])
            else if bar_time.key = lastBar.timestamp.key then
              match current_data.filter
                  (fun b => decide (b.timestamp.key = bar_time.key)) with
              | [b] =>
                let new_high := max b.high price
                let new_low := min b.low price
                let new_volume := max (b.volume + volume) 1
                let d1 := current_data.map (fun r =>
                  if r.timestamp.key = bar_time.key then
                    { r with high := new_high, low := new_low,
                             close := price, volume := new_volume }
                  else r)
                let d2 := if 1000 < d1.length then tailN 1000 d1 else d1
                ({ st with data := dictSet st.data tf_key d2 }, [])
              | _ => (st, [])
            else
              if 1000 < current_data.length then
                ({ st with data :=
                    dictSet st.data tf_key (tailN 1000 current_data) }, [])
              else (st, [])

/-- Embedding of `_process_tick_data(tick)`: a no-op unless the feed is
running; otherwise fan the tick out to every configured timeframe and then
dispatch a `data_update` callback. -/
def process_tick_data (st : MgrState) (ts : PyDateTime) (price : ℚ)
    (volume : Int) : MgrState × List Event :=
  if st.is_running = false then (st, [])
  else
    let folded := st.timeframes.foldl
      (fun (acc : MgrState × List Event) tf =>
        let r := update_timeframe_data acc.1 tf.1 ts price volume
        (r.1, acc.2 ++ r.2))
      (st, [])
    (folded.1, folded.2 ++ [Event.data_update price volume])

/-- C10.  When the feed is not running, processing any tick is a complete
no-op: no bar frame of any timeframe changes, `last_bar_times` is
unchanged, and no `data_update` or `new_bar` callback fires. -/
theorem process_tick_not_running (st : MgrState) (ts : PyDateTime)
    (price : ℚ) (volume : Int) (h : st.is_running = false) :
    process_tick_data st ts price volume = (st, []) := by
  rw [process_tick_data, if_pos h]

/-- Witness for `process_tick_not_running` at a concrete stopped manager. -/
theorem process_tick_not_running_witness :
    process_tick_data
      { is_running := false, timeframes := [("5min", 5, 2)],
        data := [("5min", [])], last_bar_times := [] }
      ⟨0, 0, 7, 30, 0⟩ 100 3 =
      ({ is_running := false, timeframes := [("5min", 5, 2)],
         data := [("5min", [])], last_bar_times := [] }, []) :=
  process_tick_not_running _ _ _ _ rfl

/-- For one timeframe key: the tick at `ts` is a late tick for a valid,
non-empty series of at most 1000 bars (or the key resolves to nothing). -/
def lateForKey (st : MgrState) (ts : PyDateTime) (k : String) : Bool :=
  match st.timeframes.lookup k with
  | none => true
  | some (interval, unit) =>
    match calculate_bar_time ts interval unit with
    | .error _ => true
    | .ok bt =>
      match st.data.lookup k with
      | none => true
      | some d =>
          !d.isEmpty && decide (d.length ≤ 1000) &&
          (match d.getLast? with
           | some b => decide (bt.key < b.timestamp.key)
           | none => false)

/-- The tick at `ts` is late for every configured timeframe. -/
def lateTickOk (st : MgrState) (ts : PyDateTime) : Bool :=
  st.timeframes.all (fun tf => lateForKey st ts tf.1)

theorem update_timeframe_data_late (st : MgrState) (ts : PyDateTime)
    (k : String) (price : ℚ) (volume : Int)
    (h : lateForKey st ts k = true) :
    update_timeframe_data st k ts price volume = (st, []) := by
  rw [lateForKey] at h
  rw [update_timeframe_data]
  cases htf : st.timeframes.lookup k with
  | none => simp only [htf]
  | some iu =>
    obtain ⟨interval, unit⟩ := iu
    simp only [htf] at h ⊢
    cases hbt : calculate_bar_time ts interval unit with
    | error e => simp only [hbt]
    | ok bt =>
      simp only [hbt] at h ⊢
      cases hd : st.data.lookup k with
      | none => simp only [hd]
      | some d =>
        simp only [hd] at h ⊢
        cases hlast : d.getLast? with
        | none =>
          simp only [hlast, Bool.and_false] at h
          exact absurd h Bool.false_ne_true
        | some b =>
          simp only [hlast, Bool.and_eq_true, Bool.not_eq_true',
            decide_eq_true_eq] at h
          obtain ⟨⟨hne, hlen⟩, hlt⟩ := h
          simp only [hlast]
          rw [if_neg (by simp [hne])]
          rw [if_neg (by omega), if_neg (by omega), if_neg (by omega)]

/-- C8.  Ingesting a late tick — one whose bucket start is strictly below
the last bar's bucket start in every configured timeframe — leaves every
bar of every timeframe unchanged, leaves `last_bar_times` unchanged, and
emits no `new_bar` event (only the trailing `data_update`). -/
theorem late_tick_no_change (st : MgrState) (ts : PyDateTime) (price : ℚ)
    (volume : Int) (hrun : st.is_running = true)
    (hlate : lateTickOk st ts = true) :
    process_tick_data st ts price volume =
      (st, [Event.data_update price volume]) := by
  rw [process_tick_data, if_neg (by simp [hrun])]
  have hall := List.all_eq_true.mp hlate
  have hfold : ∀ (tfs : List (String × Nat × Nat)),
      (∀ tf ∈ tfs, lateForKey st ts tf.1 = true) →
      ∀ evs : List Event,
      tfs.foldl
        (fun (acc : MgrState × List Event) tf =>
          let r := update_timeframe_data acc.1 tf.1 ts price volume
          (r.1, acc.2 ++ r.2))
        (st, evs) = (st, evs) := by
    intro tfs
    induction tfs with
    | nil => intro _ evs; rfl
    | cons tf tl ih =>
      intro hmem evs
      have hstep := update_timeframe_data_late st ts tf.1 price volume
        (hmem tf (List.mem_cons_self _ _))
      simp only [List.foldl_cons, hstep, List.append_nil]
      exact ih (fun x hx => hmem x (List.mem_cons_of_mem _ hx)) evs
  rw [hfold st.timeframes (fun tf htf => hall tf htf) []]
  rfl

/-- Concrete manager for the C8/C7 witnesses: one 5-minute timeframe whose
series holds a single bar in the 00:05 bucket. -/
def stC8 : MgrState :=
  { is_running := true, timeframes := [("5min", 5, 2)],
    data := [("5min", [⟨⟨0, 0, 5, 0, 0⟩, 100, 101, 99, 100, 6⟩])],
    last_bar_times := [("5min", ⟨0, 0, 5, 0, 0⟩)] }

/-- Witness for `late_tick_no_change`: a tick at 00:04:30 buckets to 00:00,
strictly before the last (and only) 00:05 bar of `stC8`. -/
theorem late_tick_no_change_witness :
    process_tick_data stC8 ⟨0, 0, 4, 30, 0⟩ 102 3 =
      (stC8, [Event.data_update 102 3]) :=
  late_tick_no_change stC8 ⟨0, 0, 4, 30, 0⟩ 102 3 rfl (by decide)

theorem map_overwrite_self {α : Type} (l : List (String × α)) (k : String)
    (v : α) (hl : l.lookup k = some v) (hnd : (l.map Prod.fst).Nodup) :
    l.map (fun p => if p.1 = k then (k, v) else p) = l := by
  induction l with
  | nil => simp at hl
  | cons a tl ih =>
    obtain ⟨a1, a2⟩ := a
    simp only [List.map_cons, List.nodup_cons] at hnd
    obtain ⟨hnotin, hndtl⟩ := hnd
    by_cases hak : a1 = k
    · subst hak
      rw [List.lookup_cons_self] at hl
      injection hl with hv
      subst hv
      simp only [List.map_cons, if_pos rfl]
      congr 1
      have hid : ∀ p ∈ tl, (if p.1 = a1 then (a1, a2) else p) = p := by
        intro p hp
        rw [if_neg]
        intro hc
        exact hnotin (hc ▸ List.mem_map_of_mem Prod.fst hp)
      exact (List.map_congr_left hid).trans (List.map_id tl)
    · rw [List.lookup] at hl
      rw [show (k == a1) = false from
        beq_eq_false_iff_ne.mpr (Ne.symm hak)] at hl
      simp only [List.map_cons, if_neg hak]
      congr 1
      exact ih hl hndtl

theorem dictSet_self {α : Type} (l : List (String × α)) (k : String)
    (v : α) (hl : l.lookup k = some v) (hnd : (l.map Prod.fst).Nodup) :
    dictSet l k v = l := by
  rw [dictSet, if_pos (by simp [hl])]
  exact map_overwrite_self l k v hl hnd

/-- C7.  `append_or_update` is idempotent for a zero-volume tick whose
bucket equals the current bar's bucket start and whose price equals the
current bar's close: for a valid series (unique bucket instants, at most
1000 bars, current-bar invariant `low ≤ close ≤ high`, `volume ≥ 1`) the
update leaves the series, the whole manager state, and the event stream
unchanged. -/
theorem update_timeframe_idempotent (st : MgrState) (tf : String)
    (i u : Nat) (ts bt : PyDateTime) (d : List Bar) (b : Bar)
    (htf : st.timeframes.lookup tf = some (i, u))
    (hbt : calculate_bar_time ts i u = .ok bt)
    (hd : st.data.lookup tf = some d)
    (hkeys : (st.data.map Prod.fst).Nodup)
    (hlast : d.getLast? = some b)
    (hkey : bt.key = b.timestamp.key)
    (huniq : d.filter (fun r => decide (r.timestamp.key = bt.key)) = [b])
    (hlow : b.low ≤ b.close) (hhigh : b.close ≤ b.high)
    (hvol : 1 ≤ b.volume) (hlen : d.length ≤ 1000) :
    update_timeframe_data st tf ts b.close 0 = (st, []) := by
  rw [update_timeframe_data]
  simp only [htf, hbt, hd]
  have hdne : d ≠ [] := by
    intro hc
    rw [hc] at hlast
    simp at hlast
  rw [if_neg (by simp [hdne])]
  simp only [hlast]
  rw [if_neg (by omega), if_pos hkey]
  simp only [huniq]
  have hfb : ({ b with
      high := b.high ⊔ b.close, low := b.low ⊓ b.close,
      close := b.close, volume := (b.volume + 0) ⊔ 1 } : Bar) = b := by
    have h1 : b.high ⊔ b.close = b.high := sup_eq_left.mpr hhigh
    have h2 : b.low ⊓ b.close = b.low := inf_eq_left.mpr hlow
    have h3 : (b.volume + 0) ⊔ 1 = b.volume := by
      rw [add_zero]
      exact sup_eq_left.mpr hvol
    rw [h1, h2, h3]
  have hmap : d.map (fun r =>
      if r.timestamp.key = bt.key then
        { r with
          high := b.high ⊔ b.close, low := b.low ⊓ b.close,
          close := b.close, volume := (b.volume + 0) ⊔ 1 }
      else r) = d := by
    have hid : ∀ r ∈ d, (if r.timestamp.key = bt.key then
        ({ r with
           high := b.high ⊔ b.close, low := b.low ⊓ b.close,
           close := b.close, volume := (b.volume + 0) ⊔ 1 } : Bar)
      else r) = r := by
      intro r hr
      by_cases hrk : r.timestamp.key = bt.key
      · have hrb : r = b := by
          have : r ∈ d.filter
              (fun x => decide (x.timestamp.key = bt.key)) :=
            List.mem_filter.mpr ⟨hr, by simpa using hrk⟩
          rw [huniq] at this
          simpa using this
        subst hrb
        rw [if_pos hrk, hfb]
      · rw [if_neg hrk]
    exact (List.map_congr_left hid).trans (List.map_id d)
  rw [hmap, if_neg (by omega)]
  rw [dictSet_self st.data tf d hd hkeys]

/-- Witness for `update_timeframe_idempotent` at the concrete manager
`stC8`: a tick at 00:07:30 buckets to the existing 00:05 bar, carries its
close 100 and volume 0, and changes nothing. -/
theorem update_timeframe_idempotent_witness :
    update_timeframe_data stC8 "5min" ⟨0, 0, 7, 30, 0⟩ 100 0 =
      (stC8, []) :=
  update_timeframe_idempotent stC8 "5min" 5 2 ⟨0, 0, 7, 30, 0⟩
    ⟨0, 0, 5, 0, 0⟩ [⟨⟨0, 0, 5, 0, 0⟩, 100, 101, 99, 100, 6⟩]
    ⟨⟨0, 0, 5, 0, 0⟩, 100, 101, 99, 100, 6⟩
    rfl rfl rfl (by decide) rfl rfl (by decide) (by decide) (by decide)
    (by decide) (by decide)
